import Mathlib

/-!
Verification of the task-orchestration service in `src/main.py`
(TDS-P1 repository).

Strings are modelled as `List Char`.  Python whitespace handling
(`str.strip`, the regex class `\s`) is modelled over the six ASCII
whitespace characters, the ones relevant to the program's data.
External HTTP effects are modelled by a `World` record supplying the
status codes and bodies the remote services answer with; each
orchestration function returns the list of outbound calls it performed
(`Event` trace) next to its result, so that ordering and gating claims
become statements about traces.
-/

/-- ASCII whitespace, the characters matched by Python's `\s` (for the
ASCII subset relevant here) and stripped by `str.strip()`. -/
def isWs (c : Char) : Bool :=
  c = ' ' || c = '\t' || c = '\n' || c = '\r' || c = '\x0b' || c = '\x0c'

/-- Left strip: drop leading whitespace, as Python `lstrip`. -/
def stripLeft (l : List Char) : List Char := l.dropWhile isWs

/-- Right strip: drop trailing whitespace, as Python `rstrip`. -/
def stripRight (l : List Char) : List Char := (l.reverse.dropWhile isWs).reverse

/-- Python `str.strip()` over the ASCII whitespace set. -/
def pyStrip (l : List Char) : List Char := stripRight (stripLeft l)

/-- A generated file, the dict `\x7b"filename": ..., "content": ...\x7d`
produced by `extract_files_from_response` in `src/main.py`. -/
structure GeneratedFile where
  filename : List Char
  content : List Char
deriving DecidableEq, Repr

/-- Case-insensitive character comparison for an uppercase-letter-or-symbol
pattern character, as `re.IGNORECASE` treats the literal `<<END_FILE>>`:
a letter also matches its lowercase form, symbols match exactly. -/
def eqCI (p c : Char) : Bool :=
  p == c || (65 ≤ p.toNat && p.toNat ≤ 90 && c.toNat == p.toNat + 32)

/-- The literal end marker of the block grammar in `src/main.py`. -/
def endMarkerL : List Char := "<<END_FILE>>".data

/-- Match a literal pattern case-insensitively against a prefix of the
text, as the compiled regex matches `<<END_FILE>>` under `re.IGNORECASE`. -/
def matchCI : List Char → List Char → Bool
  | [], _ => true
  | _ :: _, [] => false
  | p :: ps, c :: cs => eqCI p c && matchCI ps cs

/-- Does the text start with (a case variant of) `<<END_FILE>>`? -/
def isEndMarkerCI (l : List Char) : Bool := matchCI endMarkerL l

/-- Does the text contain (a case variant of) `<<END_FILE>>` anywhere? -/
def containsEndCI : List Char → Bool
  | [] => false
  | c :: rest => isEndMarkerCI (c :: rest) || containsEndCI rest

/-- Character admitted by the regex class `[^>]` of the start marker. -/
def notGt (c : Char) : Bool := !(c == '>')

/-- The greedy-with-backtracking `\s*\n` step of the block regex: consume
the maximal whitespace prefix up to and including its last newline; fail
when the whitespace prefix contains no newline. -/
def consumeWsNl : List Char → Option (List Char)
  | [] => none
  | c :: rest =>
    if isWs c then
      match consumeWsNl rest with
      | some r => some r
      | none => if c = '\n' then some rest else none
    else none

/-- The non-greedy `(.*?)\n<<END_FILE>>` step (with `re.DOTALL`): find
the shortest content prefix followed by a newline and the end marker;
return the content and the text after the end marker. -/
def findEnd : List Char → Option (List Char × List Char)
  | [] => none
  | c :: rest =>
    if c = '\n' && isEndMarkerCI rest then
      some ([], rest.drop endMarkerL.length)
    else
      match findEnd rest with
      | some (cnt, r) => some (c :: cnt, r)
      | none => none

/-- One attempt of the block regex
`<<([^>]+)>>\s*\n(.*?)\n<<END_FILE>>` (flags `DOTALL | IGNORECASE`)
anchored at the start of the text, as `re.findall` attempts it at each
scan position.  Returns the two capture groups and the text after the
match. -/
def matchBlock (l : List Char) : Option (List Char × List Char × List Char) :=
  match l with
  | c1 :: c2 :: l1 =>
    if c1 = '<' && c2 = '<' then
      let fn := l1.takeWhile notGt
      match l1.dropWhile notGt with
      | g1 :: g2 :: l3 =>
        if fn ≠ [] && g1 = '>' && g2 = '>' then
          match consumeWsNl l3 with
          | none => none
          | some l4 =>
            match findEnd l4 with
            | none => none
            | some (cnt, rest) => some (fn, cnt, rest)
        else none
      | _ => none
    else none
  | _ => none

/-- Fuel-indexed scan loop of `re.findall`: try the block pattern at the
current position; on success record the capture groups and resume after
the match, otherwise advance one character.  `fuel ≥ length` makes the
fuel irrelevant. -/
def findBlocksF : Nat → List Char → List (List Char × List Char)
  | 0, _ => []
  | fuel + 1, l =>
    match matchBlock l with
    | some (fn, cnt, rest) => (fn, cnt) :: findBlocksF fuel rest
    | none =>
      match l with
      | [] => []
      | _ :: rest => findBlocksF fuel rest

/-- Scan of `pattern.findall(response_content)` for the block pattern of
`extract_files_from_response`. -/
def findBlocks (l : List Char) : List (List Char × List Char) :=
  findBlocksF l.length l

/-- The loop body of `extract_files_from_response`: strip filename and
content, silently drop the entry when either stripped part is empty. -/
def cleanEntry (p : List Char × List Char) : Option GeneratedFile :=
  let cleaned_filename := pyStrip p.1
  let cleaned_content := pyStrip p.2
  if cleaned_content = [] || cleaned_filename = [] then none
  else some ⟨cleaned_filename, cleaned_content⟩

/-- Embedding of `extract_files_from_response` from `src/main.py`: find all blocks,
strip filename and content, and silently drop entries whose stripped
filename or stripped content is empty. -/
def extract_files_from_response (l : List Char) : List GeneratedFile :=
  (findBlocks l).filterMap cleanEntry

/-- Serialization of one file in the delimiter grammar, exactly as the
round-2 context serializer in `round2_handler` emits it:
`<<filename>>` newline content newline `<<END_FILE>>` newline. -/
def serializeFile (f : GeneratedFile) : List Char :=
  '<' :: '<' :: (f.filename ++ '>' :: '>' :: '\n' ::
    (f.content ++ '\n' :: (endMarkerL ++ ['\n'])))

/-- Concatenated serialization of a file list, the block portion of the
`EXISTING CODE CONTEXT` built by `round2_handler`. -/
def serializeContext : List GeneratedFile → List Char
  | [] => []
  | f :: rest => serializeFile f ++ serializeContext rest

/-- One entry of the JSON array returned by the repository
contents-listing endpoint, together with the outcome the world assigns
to downloading it: `dlExc` models `requests.get` raising on the
download, `dlStatus`/`dlContent` model the download response. -/
structure RepoItem where
  name : List Char
  type : List Char
  download_url : Option (List Char)
  dlStatus : Nat
  dlContent : List Char
  dlExc : Bool
deriving DecidableEq, Repr

/-- The environment of one request: every answer the external services
(GitHub API, LLM API, pages probe, build probe) give to the program.
Transport failures of an HTTP call are modelled by a non-success status. -/
structure World where
  SECRET : List Char
  llmStatus : Nat
  llmContent : List Char
  createStatus : Nat
  pagesStatus : Nat
  latestShaStatus : Nat
  latestSha : List Char
  probeStatus : List Char → Nat
  probeSha : List Char → List Char
  putStatus : List Char → Nat
  listStatus : Nat
  listing : List RepoItem
  pollStatus : Nat → Nat
  buildStatus : Nat → List Char
  buildSha : Nat → List Char

/-- Observable outbound calls of the program, in the order performed. -/
inductive Event where
  | llmCall : Event
  | createRepoCall : List Char → Event
  | pushFileProbe : List Char → List Char → Event
  | pushFileWrite : List Char → List Char → Option (List Char) → Event
  | enablePagesCall : List Char → Event
  | getLatestShaCall : List Char → Event
  | fetchListCall : List Char → Event
  | fetchDownload : List Char → List Char → Event
  | pagesProbe : Event
  | buildProbe : Event
  | notifyCall : List Char → Event
deriving DecidableEq, Repr

/-- The repository name each event addresses, when it addresses one. -/
def eventRepo : Event → Option (List Char)
  | Event.createRepoCall r => some r
  | Event.pushFileProbe r _ => some r
  | Event.pushFileWrite r _ _ => some r
  | Event.enablePagesCall r => some r
  | Event.getLatestShaCall r => some r
  | Event.fetchListCall r => some r
  | Event.fetchDownload r _ => some r
  | _ => none

/-- Is the event a repository file write (`PUT .../contents/...`)? -/
def isWriteEvent : Event → Bool
  | Event.pushFileWrite _ _ _ => true
  | _ => false

/-- Is the event a publication step of round 1 (file write or pages
enablement)? -/
def isPublishEvent : Event → Bool
  | Event.pushFileWrite _ _ _ => true
  | Event.enablePagesCall _ => true
  | _ => false

/-- Is the event the callback POST to the evaluation URL? -/
def isNotifyEvent : Event → Bool
  | Event.notifyCall _ => true
  | _ => false

/-- The inbound JSON body of `POST /handle_task`. -/
structure TaskData where
  email : List Char
  secret : List Char
  task : List Char
  round : Option Nat
  nonce : List Char
  brief : List Char
  checks : List (List Char)
  attachments : List (List Char × List Char)
  evaluation_url : Option (List Char)

/-- The `TaskResult` payload assembled by the round handlers. -/
structure Payload where
  email : List Char
  task : List Char
  round : Nat
  nonce : List Char
  repo_url : List Char
  commit_sha : List Char
  pages_url : List Char
deriving DecidableEq, Repr

/-- Embedding of `validate_secret` from `src/main.py`. -/
def validate_secret (w : World) (secret : List Char) : Bool :=
  secret == w.SECRET

/-- The artifact-repository name, `f"\x7bdata['task']\x7d-\x7bdata['nonce']\x7d"`
as computed identically in `round1_handler` and `round2_handler`. -/
def repoName (task nonce : List Char) : List Char := task ++ '-' :: nonce

/-- Embedding of `llm_process` from `src/main.py`: call the generative service and
parse its text; any transport error, non-200 status or malformed reply
is caught and converted to the empty list. -/
def llm_process (w : World) : List GeneratedFile :=
  if w.llmStatus = 200 then extract_files_from_response w.llmContent else []

/-- Embedding of `get_file_sha` from `src/main.py`: probe the contents endpoint; the
stored revision token on a 200 response, `None` otherwise. -/
def get_file_sha (w : World) (filename : List Char) : Option (List Char) :=
  if w.probeStatus filename = 200 then some (w.probeSha filename) else none

/-- The `sha` field of the write payload built by `push_code`: Python's
`if file_sha:` includes the probed token only when it is truthy, so an
empty-string token is omitted exactly like an absent one. -/
def shaFieldOf (w : World) (filename : List Char) : Option (List Char) :=
  match get_file_sha w filename with
  | some s => if s = [] then none else some s
  | none => none

/-- Embedding of `push_code` from `src/main.py`: for each file in list order, probe
for an existing revision token, `PUT` the file (token included iff
truthy), and raise at the first response outside 200/201. -/
def push_code (w : World) (reponame : List Char) (files : List GeneratedFile)
    ( round : Nat) : List Event × Except (List Char) Unit :=
  match files with
  | [] => ([], Except.ok ())
  | f :: rest =>
    let ev := [Event.pushFileProbe reponame f.filename,
               Event.pushFileWrite reponame f.filename (shaFieldOf w f.filename)]
    if w.putStatus f.filename = 200 ∨ w.putStatus f.filename = 201 then
      let r := push_code w reponame rest round
      (ev ++ r.1, r.2)
    else
      (ev, Except.error ("Failed to push file".data))

/-- The constant `EXCLUDE_FILES` from `fetch_repo_files`. -/
def EXCLUDE_FILES : List (List Char) := ["LICENSE".data, ".gitignore".data]

/-- Does a listing entry pass the filters of `fetch_repo_files` (type
`file`, not excluded, download URL present)? -/
def itemEligible (it : RepoItem) : Prop :=
  it.type = "file".data ∧ it.name ∉ EXCLUDE_FILES ∧ it.download_url ≠ none

instance : DecidablePred itemEligible := fun it => by
  unfold itemEligible; infer_instance

/-- The body of the listing loop in `fetch_repo_files`: skip entries
failing the filters, download the rest, append those downloading with
status 200; an exception while downloading ends the loop with the files
collected so far. -/
def fetch_loop (w : World) (reponame : List Char) :
    List RepoItem → List GeneratedFile → List Event × List GeneratedFile
  | [], acc => ([], acc)
  | it :: rest, acc =>
    if itemEligible it then
      if it.dlExc then ([Event.fetchDownload reponame it.name], acc)
      else
        let r :=
          if it.dlStatus = 200 then
            fetch_loop w reponame rest (acc ++ [⟨it.name, it.dlContent⟩])
          else fetch_loop w reponame rest acc
        (Event.fetchDownload reponame it.name :: r.1, r.2)
    else fetch_loop w reponame rest acc

/-- Embedding of `fetch_repo_files` from `src/main.py`: list the repository root; a
non-200 listing yields `[]`, otherwise collect eligible entries until
exhaustion or the first download exception. -/
def fetch_repo_files (w : World) (reponame : List Char) :
    List Event × List GeneratedFile :=
  let ev0 := [Event.fetchListCall reponame]
  if w.listStatus = 200 then
    let r := fetch_loop w reponame w.listing []
    (ev0 ++ r.1, r.2)
  else (ev0, [])

/-- Assemble the `TaskResult` dict of a round handler. -/
def mkPayload (d : TaskData) (r : Nat) (reponame sha : List Char) : Payload :=
  { email := d.email
    task := d.task
    round := r
    nonce := d.nonce
    repo_url := "https://github.com/Devamm007/".data ++ reponame
    commit_sha := sha
    pages_url := "https://devamm007.github.io/".data ++ reponame ++ "/".data }

/-- Embedding of `round1_handler` from `src/main.py`: start `llm_process` and
`create_repo` together via `asyncio.gather` (both are invoked whatever
the other does; the model records both calls up front), then — only
after both completed — push the files, enable pages, and read the
latest commit.  A failed repository creation aborts before any
publication step. -/
def round1_handler (w : World) (d : TaskData) :
    List Event × Except (List Char) Payload :=
  let reponame := repoName d.task d.nonce
  let files := llm_process w
  let gatherEv := [Event.llmCall, Event.createRepoCall reponame]
  if w.createStatus = 201 then
    let pres := push_code w reponame files 1
    match pres.2 with
    | Except.error m => (gatherEv ++ pres.1, Except.error m)
    | Except.ok _ =>
      let ev2 := gatherEv ++ pres.1 ++ [Event.enablePagesCall reponame]
      if w.pagesStatus = 201 then
        let ev3 := ev2 ++ [Event.getLatestShaCall reponame]
        if w.latestShaStatus = 200 then
          (ev3, Except.ok (mkPayload d 1 reponame w.latestSha))
        else (ev3, Except.error ("Failed to get latest commit".data))
      else (ev2, Except.error ("Failed to enable GitHub Pages".data))
  else (gatherEv, Except.error ("Failed to create repository".data))

/-- Framing lines of the round-2 context block. -/
def contextHeader : List Char := "\n--- EXISTING CODE CONTEXT ---\n".data

/-- Closing line of the round-2 context block. -/
def contextFooter : List Char := "--- END EXISTING CODE CONTEXT ---\n".data

/-- Embedding of `round2_handler` from `src/main.py`: fetch the existing files,
serialize them into the prompt context, generate, abort when generation
yielded no files, otherwise push and read the latest commit. -/
def round2_handler (w : World) (d : TaskData) :
    List Event × Except (List Char) Payload :=
  let reponame := repoName d.task d.nonce
  let fr := fetch_repo_files w reponame
  let _context := contextHeader ++ serializeContext fr.2 ++ contextFooter
  let files := llm_process w
  let ev1 := fr.1 ++ [Event.llmCall]
  if files = [] then
    (ev1, Except.error ("No files generated by LLM for round 2".data))
  else
    let pres := push_code w reponame files 2
    match pres.2 with
    | Except.error m => (ev1 ++ pres.1, Except.error m)
    | Except.ok _ =>
      let ev2 := ev1 ++ pres.1 ++ [Event.getLatestShaCall reponame]
      if w.latestShaStatus = 200 then
        (ev2, Except.ok (mkPayload d 2 reponame w.latestSha))
      else (ev2, Except.error ("Failed to get latest commit".data))

/-- The round-1 convergence loop of `handle_task`: up to `n` GETs of the
pages URL, stopping at the first 200. -/
def pollPages (w : World) : Nat → Nat → List Event
  | 0, _ => []
  | n + 1, i =>
    Event.pagesProbe ::
      (if w.pollStatus i = 200 then [] else pollPages w n (i + 1))

/-- The round-2 convergence loop of `handle_task`: up to `n` GETs of the
latest-build endpoint, stopping when the build status is `built` and
its commit matches the round's commit SHA. -/
def pollBuild (w : World) (expected : List Char) : Nat → Nat → List Event
  | 0, _ => []
  | n + 1, i =>
    Event.buildProbe ::
      (if w.buildStatus i = "built".data ∧ w.buildSha i = expected then []
       else pollBuild w expected n (i + 1))

/-- The fire-and-forget callback POST: attempted when `evaluation_url`
is supplied; its own failure is swallowed. -/
def notifyEvents (d : TaskData) : List Event :=
  match d.evaluation_url with
  | some u => [Event.notifyCall u]
  | none => []

/-- The three shapes a `POST /handle_task` request can end in: a
returned `\x7b"error": ...\x7d` dict, a returned `TaskResult`, or an
exception escaping the endpoint to the HTTP framework. -/
inductive HtResult where
  | errorDict : List Char → HtResult
  | payload : Payload → HtResult
  | exn : List Char → HtResult
deriving DecidableEq, Repr

/-- Is the request outcome a returned `\x7b"error": ...\x7d` dict? -/
def isErrorDict : HtResult → Bool
  | HtResult.errorDict _ => true
  | _ => false

/-- Embedding of `handle_task` from `src/main.py`: validate the secret, run the
round's handler, poll for convergence (success or exhaustion both fall
through), notify the evaluation URL, and return the payload.  A raise
inside a round handler escapes the endpoint unhandled. -/
def handle_task (w : World) (d : TaskData) : List Event × HtResult :=
  if validate_secret w d.secret then
    match d.round with
    | some 1 =>
      let r1 := round1_handler w d
      match r1.2 with
      | Except.error m => (r1.1, HtResult.exn m)
      | Except.ok p =>
        (r1.1 ++ pollPages w 24 0 ++ notifyEvents d, HtResult.payload p)
    | some 2 =>
      let r2 := round2_handler w d
      match r2.2 with
      | Except.error m => (r2.1, HtResult.exn m)
      | Except.ok p =>
        (r2.1 ++ pollBuild w p.commit_sha 24 0 ++ notifyEvents d,
         HtResult.payload p)
    | _ => (notifyEvents d, HtResult.errorDict ("Invalid round".data))
  else ([], HtResult.errorDict ("Invalid secret".data))

/-- A file that serializes losslessly: nonempty strip-stable filename
without the reserved character of the `[^>]+` group, nonempty
strip-stable content free of (any case variant of) the end marker. -/
def goodFile (f : GeneratedFile) : Prop :=
  f.filename ≠ [] ∧ (∀ c ∈ f.filename, ¬ c = '>') ∧
    pyStrip f.filename = f.filename ∧
    f.content ≠ [] ∧ pyStrip f.content = f.content ∧
    containsEndCI f.content = false

instance : DecidablePred goodFile := fun f => by
  unfold goodFile; infer_instance

/-- Well-formed blocks separated and surrounded by junk text. -/
def interleaveJunk : List (List Char × GeneratedFile) → List Char → List Char
  | [], post => post
  | (j, f) :: rest, post => j ++ (serializeFile f ++ interleaveJunk rest post)

lemma tw_append {α} (p : α → Bool) (a b : List α) (h : ∀ c ∈ a, p c = true) :
    (a ++ b).takeWhile p = a ++ b.takeWhile p := by
  induction a with
  | nil => simp
  | cons x xs ih =>
    have hx : p x = true := h x (by simp)
    simp only [List.cons_append, List.takeWhile_cons, hx, if_true]
    rw [ih fun c hc => h c (by simp [hc])]

lemma dw_append {α} (p : α → Bool) (a b : List α) (h : ∀ c ∈ a, p c = true) :
    (a ++ b).dropWhile p = b.dropWhile p := by
  induction a with
  | nil => simp
  | cons x xs ih =>
    have hx : p x = true := h x (by simp)
    simp only [List.cons_append, List.dropWhile_cons, hx, if_true]
    exact ih fun c hc => h c (by simp [hc])

lemma dw_length_le {α} (p : α → Bool) (l : List α) :
    (l.dropWhile p).length ≤ l.length := by
  induction l with
  | nil => simp
  | cons x xs ih =>
    by_cases hx : p x = true
    · simp only [List.dropWhile_cons, hx, if_true]
      exact Nat.le_succ_of_le ih
    · simp [List.dropWhile_cons, hx]

lemma dw_length_eq {α} (p : α → Bool) (l : List α)
    (h : (l.dropWhile p).length = l.length) : l.dropWhile p = l := by
  induction l with
  | nil => simp
  | cons x xs _ =>
    by_cases hx : p x = true
    · exfalso
      simp only [List.dropWhile_cons, hx, if_true] at h
      have := dw_length_le p xs
      simp [List.length_cons] at h
      omega
    · simp [List.dropWhile_cons, hx]

lemma dw_idem {α} (p : α → Bool) (l : List α) :
    (l.dropWhile p).dropWhile p = l.dropWhile p := by
  induction l with
  | nil => simp
  | cons x xs ih =>
    by_cases hx : p x = true
    · simp only [List.dropWhile_cons, hx, if_true]; exact ih
    · simp [List.dropWhile_cons, hx]

lemma dw_is_tail {α} (p : α → Bool) (l : List α) :
    ∃ pre, l = pre ++ l.dropWhile p := by
  induction l with
  | nil => exact ⟨[], rfl⟩
  | cons x xs ih =>
    by_cases hx : p x = true
    · obtain ⟨pre, hp⟩ := ih
      exact ⟨x :: pre, by simp only [List.dropWhile_cons, hx, if_true]
                          rw [List.cons_append, ← hp]⟩
    · exact ⟨[], by simp [List.dropWhile_cons, hx]⟩

lemma stripRight_length_le (l : List Char) :
    (stripRight l).length ≤ l.length := by
  unfold stripRight
  rw [List.length_reverse]
  calc (l.reverse.dropWhile isWs).length ≤ l.reverse.length :=
        dw_length_le isWs l.reverse
    _ = l.length := List.length_reverse l

lemma stripRight_starts (l : List Char) : ∃ t, l = stripRight l ++ t := by
  obtain ⟨pre, hp⟩ := dw_is_tail isWs l.reverse
  refine ⟨pre.reverse, ?_⟩
  have := congrArg List.reverse hp
  rw [List.reverse_reverse, List.reverse_append] at this
  exact this

lemma stripLeft_fix_head (c : Char) (t : List Char)
    (h : stripLeft (c :: t) = c :: t) : isWs c = false := by
  by_cases hc : isWs c = true
  · exfalso
    unfold stripLeft at h
    simp only [List.dropWhile_cons, hc, if_true] at h
    have h1 : (t.dropWhile isWs).length = t.length + 1 := by
      rw [h]; simp
    have := dw_length_le isWs t
    omega
  · simpa using hc

lemma pyStrip_stripLeft_fix (l : List Char) (h : pyStrip l = l) :
    stripLeft l = l := by
  have h1 : l.length ≤ (stripLeft l).length := by
    calc l.length = (pyStrip l).length := by rw [h]
      _ ≤ (stripLeft l).length := stripRight_length_le (stripLeft l)
  have h2 : (stripLeft l).length = l.length :=
    Nat.le_antisymm (dw_length_le isWs l) h1
  exact dw_length_eq isWs l h2

lemma pyStrip_fix_head (c : Char) (t : List Char)
    (h : pyStrip (c :: t) = c :: t) : isWs c = false :=
  stripLeft_fix_head c t (pyStrip_stripLeft_fix (c :: t) h)

lemma stripLeft_stripRight_fix (l : List Char) (h : stripLeft l = l) :
    stripLeft (stripRight l) = stripRight l := by
  cases hsr : stripRight l with
  | nil => rfl
  | cons c r =>
    obtain ⟨t, ht⟩ := stripRight_starts l
    rw [hsr] at ht
    have hl : l = c :: (r ++ t) := by simpa using ht
    have hc : isWs c = false := stripLeft_fix_head c (r ++ t) (hl ▸ h)
    unfold stripLeft
    simp [List.dropWhile_cons, hc]

lemma stripRight_idem (l : List Char) :
    stripRight (stripRight l) = stripRight l := by
  unfold stripRight
  rw [List.reverse_reverse, dw_idem]

lemma pyStrip_idem (l : List Char) : pyStrip (pyStrip l) = pyStrip l := by
  unfold pyStrip
  have h1 : stripLeft (stripLeft l) = stripLeft l := dw_idem isWs l
  rw [stripLeft_stripRight_fix (stripLeft l) h1, stripRight_idem]

lemma eqCI_refl (p : Char) : eqCI p p = true := by simp [eqCI]

lemma matchCI_self_append (ps z : List Char) : matchCI ps (ps ++ z) = true := by
  induction ps with
  | nil => rfl
  | cons p ps ih => simp [matchCI, eqCI_refl, ih]

lemma matchCI_take (ps : List Char) :
    ∀ (xs z : List Char), ps.length ≤ xs.length →
      matchCI ps (xs ++ z) = matchCI ps xs := by
  induction ps with
  | nil => intro xs z _; rfl
  | cons p ps ih =>
    intro xs z hlen
    cases xs with
    | nil => simp at hlen
    | cons x xs' =>
      simp only [List.cons_append, matchCI, List.append_eq]
      rw [ih xs' z (by simp only [List.length_cons] at hlen; omega)]

lemma matchCI_short_mid (ps : List Char) (y : Char)
    (hy : ∀ p ∈ ps, eqCI p y = false) :
    ∀ (xs z : List Char), xs.length < ps.length →
      matchCI ps (xs ++ y :: z) = false := by
  induction ps with
  | nil => intro xs z h; simp at h
  | cons p ps ih =>
    intro xs z hlen
    cases xs with
    | nil =>
      simp only [List.nil_append, matchCI]
      simp [hy p (by simp)]
    | cons x xs' =>
      simp only [List.cons_append, matchCI, List.append_eq]
      rw [ih (fun q hq => hy q (by simp [hq])) xs' z
        (by simp only [List.length_cons] at hlen; omega)]
      simp

lemma em_no_nl : ∀ p ∈ endMarkerL, eqCI p '\n' = false := by decide

lemma containsEndCI_false_head (l : List Char) (h : containsEndCI l = false) :
    isEndMarkerCI l = false := by
  cases l with
  | nil => rfl
  | cons c t =>
    simp only [containsEndCI, Bool.or_eq_false_iff] at h
    exact h.1

lemma containsEndCI_false_tail (c : Char) (t : List Char)
    (h : containsEndCI (c :: t) = false) : containsEndCI t = false := by
  simp only [containsEndCI, Bool.or_eq_false_iff] at h
  exact h.2

lemma findEnd_serialized (content : List Char) (z : List Char)
    (h : containsEndCI content = false) :
    findEnd (content ++ '\n' :: (endMarkerL ++ z)) = some (content, z) := by
  induction content with
  | nil =>
    simp only [List.nil_append, findEnd, isEndMarkerCI,
      matchCI_self_append, decide_True, Bool.and_self, if_true]
    rw [List.drop_left]
  | cons c cs ih =>
    have hm : isEndMarkerCI (cs ++ '\n' :: (endMarkerL ++ z)) = false := by
      unfold isEndMarkerCI
      by_cases hle : endMarkerL.length ≤ cs.length
      · rw [matchCI_take endMarkerL cs ('\n' :: (endMarkerL ++ z)) hle]
        exact containsEndCI_false_head cs (containsEndCI_false_tail c cs h)
      · exact matchCI_short_mid endMarkerL '\n' em_no_nl cs (endMarkerL ++ z)
          (by omega)
    have hrec := ih (containsEndCI_false_tail c cs h)
    show findEnd (c :: (cs ++ '\n' :: (endMarkerL ++ z))) = some (c :: cs, z)
    conv_lhs => rw [findEnd]
    rw [hrec, hm]
    simp

lemma consumeWsNl_not_ws (c : Char) (t : List Char) (h : isWs c = false) :
    consumeWsNl (c :: t) = none := by
  simp [consumeWsNl, h]

lemma consumeWsNl_nl_stop (c0 : Char) (t : List Char) (h : isWs c0 = false) :
    consumeWsNl ('\n' :: c0 :: t) = some (c0 :: t) := by
  have h1 : consumeWsNl (c0 :: t) = none := consumeWsNl_not_ws c0 t h
  conv_lhs => rw [consumeWsNl]
  rw [h1]
  simp [isWs]

lemma matchBlock_cons_cons (c1 c2 : Char) (l1 : List Char) :
    matchBlock (c1 :: c2 :: l1) =
      if c1 = '<' && c2 = '<' then
        match l1.dropWhile notGt with
        | g1 :: g2 :: l3 =>
          if l1.takeWhile notGt ≠ [] && g1 = '>' && g2 = '>' then
            match consumeWsNl l3 with
            | none => none
            | some l4 =>
              match findEnd l4 with
              | none => none
              | some (cnt, rest) => some (l1.takeWhile notGt, cnt, rest)
          else none
        | _ => none
      else none := rfl

lemma matchBlock_serialized (f : GeneratedFile) (rest : List Char)
    (hg : goodFile f) :
    matchBlock (serializeFile f ++ rest) =
      some (f.filename, f.content, '\n' :: rest) := by
  obtain ⟨hfn, hfgt, _, hct, hctStrip, hctEnd⟩ := hg
  have hfnAll : ∀ c ∈ f.filename, notGt c = true := by
    intro c hc
    simp [notGt, hfgt c hc]
  obtain ⟨c0, ct', hct0⟩ : ∃ c0 ct', f.content = c0 :: ct' := by
    cases hc : f.content with
    | nil => exact absurd hc hct
    | cons a b => exact ⟨a, b, rfl⟩
  have hc0 : isWs c0 = false :=
    pyStrip_fix_head c0 ct' (by rw [← hct0, hctStrip])
  have hshape : serializeFile f ++ rest =
      '<' :: '<' :: (f.filename ++ '>' :: '>' :: '\n' ::
        (f.content ++ '\n' :: (endMarkerL ++ '\n' :: rest))) := by
    simp [serializeFile]
  have htw : (f.filename ++ '>' :: '>' :: '\n' ::
      (f.content ++ '\n' :: (endMarkerL ++ '\n' :: rest))).takeWhile notGt =
      f.filename := by
    rw [tw_append notGt f.filename _ hfnAll]
    simp [List.takeWhile_cons, notGt]
  have hdw : (f.filename ++ '>' :: '>' :: '\n' ::
      (f.content ++ '\n' :: (endMarkerL ++ '\n' :: rest))).dropWhile notGt =
      '>' :: '>' :: ('\n' ::
        (f.content ++ '\n' :: (endMarkerL ++ '\n' :: rest))) := by
    rw [dw_append notGt f.filename _ hfnAll]
    simp [List.dropWhile_cons, notGt]
  have hcw : consumeWsNl ('\n' ::
      (f.content ++ '\n' :: (endMarkerL ++ '\n' :: rest))) =
      some (f.content ++ '\n' :: (endMarkerL ++ '\n' :: rest)) := by
    rw [hct0]
    simp only [List.cons_append]
    exact consumeWsNl_nl_stop c0 _ hc0
  have hfe : findEnd (f.content ++ '\n' :: (endMarkerL ++ '\n' :: rest)) =
      some (f.content, '\n' :: rest) :=
    findEnd_serialized f.content ('\n' :: rest) hctEnd
  rw [hshape, matchBlock_cons_cons, htw, hdw]
  simp [hfn, hcw, hfe]

lemma matchBlock_not_lt (c : Char) (t : List Char) (h : ¬ c = '<') :
    matchBlock (c :: t) = none := by
  cases t with
  | nil => rfl
  | cons a as => simp [matchBlock, h]

lemma consumeWsNl_length (l : List Char) :
    ∀ r, consumeWsNl l = some r → r.length < l.length := by
  induction l with
  | nil => intro r h; simp [consumeWsNl] at h
  | cons c t ih =>
    intro r h
    unfold consumeWsNl at h
    by_cases hc : isWs c = true
    · rw [if_pos hc] at h
      cases hrec : consumeWsNl t with
      | some r' =>
        rw [hrec] at h
        have := ih r' hrec
        simp at h
        subst h
        simp [List.length_cons]
        omega
      | none =>
        rw [hrec] at h
        by_cases hnl : c = '\n'
        · rw [if_pos hnl] at h
          simp at h
          subst h
          simp
        · rw [if_neg hnl] at h; simp at h
    · rw [if_neg hc] at h; simp at h

lemma findEnd_length (l : List Char) :
    ∀ cnt r, findEnd l = some (cnt, r) → r.length ≤ l.length := by
  induction l with
  | nil => intro cnt r h; simp [findEnd] at h
  | cons c t ih =>
    intro cnt r h
    unfold findEnd at h
    by_cases hcond : (c = '\n' && isEndMarkerCI t) = true
    · rw [if_pos hcond] at h
      simp only [Option.some.injEq, Prod.mk.injEq] at h
      obtain ⟨_, hr⟩ := h
      subst hr
      calc (t.drop endMarkerL.length).length ≤ t.length := by
            simp
        _ ≤ (c :: t).length := by simp
    · rw [if_neg hcond] at h
      cases hrec : findEnd t with
      | some p =>
        rw [hrec] at h
        simp only [Option.some.injEq, Prod.mk.injEq] at h
        obtain ⟨_, hr⟩ := h
        subst hr
        have := ih p.1 p.2 (by rw [hrec])
        simp only [List.length_cons]
        omega
      | none => rw [hrec] at h; simp at h

lemma matchBlock_some_length (l fn cnt rest : List Char)
    (h : matchBlock l = some (fn, cnt, rest)) : rest.length < l.length := by
  cases l with
  | nil => simp [matchBlock] at h
  | cons c1 t =>
    cases t with
    | nil => simp [matchBlock] at h
    | cons c2 l1 =>
      rw [matchBlock_cons_cons] at h
      split at h
      · split at h
        next g1 g2 l3 hdw =>
          split at h
          · split at h
            next hcw => simp at h
            next l4 hcw =>
              split at h
              next hfe => simp at h
              next cnt' rest' hfe =>
                simp only [Option.some.injEq, Prod.mk.injEq] at h
                obtain ⟨-, -, hr⟩ := h
                subst hr
                have h4 : l4.length < l3.length :=
                  consumeWsNl_length l3 l4 hcw
                have h5 : rest'.length ≤ l4.length :=
                  findEnd_length l4 cnt' rest' hfe
                have h6 : (g1 :: g2 :: l3).length ≤ l1.length := by
                  rw [← hdw]; exact dw_length_le notGt l1
                simp only [List.length_cons] at h6 ⊢
                omega
          · simp at h
        next hdw => simp at h
      · simp at h


lemma findBlocksF_congr (f : Nat) :
    ∀ (g : Nat) (l : List Char), l.length ≤ f → l.length ≤ g →
      findBlocksF f l = findBlocksF g l := by
  induction f with
  | zero =>
    intro g l hf _
    have hnil : l = [] := List.length_eq_zero.mp (Nat.le_zero.mp hf)
    subst hnil
    cases g with
    | zero => rfl
    | succ g' => rfl
  | succ f' ih =>
    intro g l hf hg
    cases g with
    | zero =>
      have hnil : l = [] := List.length_eq_zero.mp (Nat.le_zero.mp hg)
      subst hnil
      rfl
    | succ g' =>
      cases hm : matchBlock l with
      | some r =>
        obtain ⟨fn, cnt, rest⟩ := r
        have hlen := matchBlock_some_length l fn cnt rest hm
        simp only [findBlocksF, hm]
        rw [ih g' rest (by omega) (by omega)]
      | none =>
        cases l with
        | nil => rfl
        | cons c t =>
          simp only [findBlocksF, hm]
          exact ih g' t
            (by simp only [List.length_cons] at hf; omega)
            (by simp only [List.length_cons] at hg; omega)

lemma findBlocks_cons_none (c : Char) (t : List Char)
    (h : matchBlock (c :: t) = none) : findBlocks (c :: t) = findBlocks t := by
  unfold findBlocks
  simp only [List.length_cons, findBlocksF, h]

lemma findBlocks_match (l fn cnt rest : List Char)
    (h : matchBlock l = some (fn, cnt, rest)) :
    findBlocks l = (fn, cnt) :: findBlocks rest := by
  have hlen := matchBlock_some_length l fn cnt rest h
  unfold findBlocks
  obtain ⟨n, hn⟩ : ∃ n, l.length = n + 1 := ⟨l.length - 1, by omega⟩
  rw [hn]
  simp only [findBlocksF, h]
  rw [findBlocksF_congr n rest.length rest (by omega) (le_refl _)]

lemma findBlocks_no_lt (X : List Char) (h : ∀ c ∈ X, ¬ c = '<') :
    findBlocks X = [] := by
  induction X with
  | nil => rfl
  | cons c t ih =>
    rw [findBlocks_cons_none c t (matchBlock_not_lt c t (h c (by simp)))]
    exact ih fun x hx => h x (by simp [hx])

lemma findBlocks_junk (j X : List Char) (hj : ∀ c ∈ j, ¬ c = '<') :
    findBlocks (j ++ X) = findBlocks X := by
  induction j with
  | nil => simp
  | cons c j' ih =>
    have hm : matchBlock (c :: (j' ++ X)) = none :=
      matchBlock_not_lt c (j' ++ X) (hj c (by simp))
    rw [List.cons_append, findBlocks_cons_none c (j' ++ X) hm]
    exact ih fun x hx => hj x (by simp [hx])

lemma findBlocks_interleave :
    ∀ (l : List (List Char × GeneratedFile)) (post : List Char),
      (∀ p ∈ l, (∀ c ∈ p.1, ¬ c = '<') ∧ goodFile p.2) →
      (∀ c ∈ post, ¬ c = '<') →
      findBlocks (interleaveJunk l post) =
        l.map fun p => (p.2.filename, p.2.content) := by
  intro l
  induction l with
  | nil => intro post _ hpost; exact findBlocks_no_lt post hpost
  | cons p l' ih =>
    intro post hl hpost
    obtain ⟨j, f⟩ := p
    have hj : ∀ c ∈ j, ¬ c = '<' := (hl (j, f) (by simp)).1
    have hf : goodFile f := (hl (j, f) (by simp)).2
    show findBlocks (j ++ (serializeFile f ++ interleaveJunk l' post)) = _
    rw [findBlocks_junk j _ hj,
        findBlocks_match _ _ _ _
          (matchBlock_serialized f (interleaveJunk l' post) hf),
        findBlocks_cons_none '\n' _
          (matchBlock_not_lt '\n' _ (by decide))]
    simp only [List.map_cons]
    rw [ih post (fun q hq => hl q (by simp [hq])) hpost]

lemma cleanEntry_eq (p : List Char × List Char) :
    cleanEntry p =
      if pyStrip p.2 = [] || pyStrip p.1 = [] then none
      else some ⟨pyStrip p.1, pyStrip p.2⟩ := rfl

lemma extract_mem_wellformed (s : List Char) (f : GeneratedFile)
    (h : f ∈ extract_files_from_response s) :
    f.filename ≠ [] ∧ f.content ≠ [] ∧
      pyStrip f.filename = f.filename ∧ pyStrip f.content = f.content := by
  unfold extract_files_from_response at h
  rw [List.mem_filterMap] at h
  obtain ⟨a, -, ha⟩ := h
  rw [cleanEntry_eq] at ha
  split at ha
  · simp at ha
  next hcond =>
    simp only [Bool.or_eq_true, decide_eq_true_eq, not_or] at hcond
    simp only [Option.some.injEq] at ha
    subst ha
    exact ⟨hcond.2, hcond.1, pyStrip_idem a.1, pyStrip_idem a.2⟩

lemma extract_no_lt (s : List Char) (h : ∀ c ∈ s, ¬ c = '<') :
    extract_files_from_response s = [] := by
  unfold extract_files_from_response
  rw [findBlocks_no_lt s h]
  rfl

lemma filterMap_good :
    ∀ l : List (List Char × GeneratedFile), (∀ p ∈ l, goodFile p.2) →
      ((l.map fun p => (p.2.filename, p.2.content)).filterMap cleanEntry) =
        l.map (·.2) := by
  intro l
  induction l with
  | nil => intro _; rfl
  | cons p l' ih =>
    intro hl
    obtain ⟨h1, -, h3, h4, h5, -⟩ := hl p (by simp)
    have hsome : cleanEntry (p.2.filename, p.2.content) = some p.2 := by
      rw [cleanEntry_eq]
      dsimp only
      rw [h3, h5]
      simp [h1, h4]
    simp only [List.map_cons, List.filterMap_cons, hsome]
    rw [ih fun q hq => hl q (by simp [hq])]

lemma extract_interleave (l : List (List Char × GeneratedFile))
    (post : List Char)
    (hl : ∀ p ∈ l, (∀ c ∈ p.1, ¬ c = '<') ∧ goodFile p.2)
    (hpost : ∀ c ∈ post, ¬ c = '<') :
    extract_files_from_response (interleaveJunk l post) = l.map (·.2) := by
  unfold extract_files_from_response
  rw [findBlocks_interleave l post hl hpost]
  exact filterMap_good l fun p hp => (hl p hp).2

lemma serializeContext_interleave (fs : List GeneratedFile) :
    serializeContext fs = interleaveJunk (fs.map fun f => ([], f)) [] := by
  induction fs with
  | nil => rfl
  | cons f fs' ih =>
    simp only [serializeContext, List.map_cons, interleaveJunk,
      List.nil_append]
    rw [ih]

lemma extract_serializeContext (fs : List GeneratedFile)
    (h : ∀ f ∈ fs, goodFile f) :
    extract_files_from_response (serializeContext fs) = fs := by
  rw [serializeContext_interleave]
  have := extract_interleave (fs.map fun f => ([], f)) []
    (by intro p hp
        rw [List.mem_map] at hp
        obtain ⟨f, hf, rfl⟩ := hp
        exact ⟨by simp, h f hf⟩)
    (by simp)
  rw [this]
  simp

example :
    extract_files_from_response ("x\n<<a.py>>\nprint\n<<END_FILE>>\ny".data) =
      [⟨"a.py".data, "print".data⟩] := by decide

example :
    extract_files_from_response ("<<a>>\n  \n<<END_FILE>>".data) = [] := by decide

example :
    extract_files_from_response ("<<a>>\nx\n<<end_file>>".data) =
      [⟨"a".data, "x".data⟩] := by decide

example : extract_files_from_response ("no markers at all".data) = [] := by decide

/-- Did the world let the `PUT` of this file succeed (status 200 or 201)? -/
def putOk (w : World) (g : GeneratedFile) : Prop :=
  w.putStatus g.filename = 200 ∨ w.putStatus g.filename = 201

instance (w : World) : DecidablePred (putOk w) := fun g => by
  unfold putOk; infer_instance

/-- The filenames of the file-write events of a trace, in order. -/
def writesOf (t : List Event) : List (List Char) :=
  t.filterMap fun e =>
    match e with
    | Event.pushFileWrite _ fn _ => some fn
    | _ => none

lemma writesOf_cons2 (repo fn : List Char) (sf : Option (List Char))
    (t : List Event) :
    writesOf (Event.pushFileProbe repo fn :: Event.pushFileWrite repo fn sf :: t) =
      fn :: writesOf t := by
  simp [writesOf, List.filterMap_cons]

lemma push_code_all_ok (w : World) (repo : List Char) (r : Nat) :
    ∀ fs : List GeneratedFile, (∀ g ∈ fs, putOk w g) →
      (push_code w repo fs r).2 = Except.ok () ∧
      writesOf (push_code w repo fs r).1 = fs.map (·.filename) := by
  intro fs
  induction fs with
  | nil => intro _; exact ⟨rfl, rfl⟩
  | cons f rest ih =>
    intro h
    have hf : w.putStatus f.filename = 200 ∨ w.putStatus f.filename = 201 :=
      h f (by simp)
    obtain ⟨ih1, ih2⟩ := ih fun g hg => h g (by simp [hg])
    simp only [push_code]
    rw [if_pos hf]
    refine ⟨ih1, ?_⟩
    simp only [List.cons_append, List.nil_append, List.map_cons]
    rw [writesOf_cons2, ih2]

lemma push_code_failfast (w : World) (repo : List Char) (r : Nat) :
    ∀ (pre : List GeneratedFile) (f : GeneratedFile)
      (post : List GeneratedFile),
      (∀ g ∈ pre, putOk w g) → ¬ putOk w f →
      (push_code w repo (pre ++ f :: post) r).2 =
          Except.error ("Failed to push file".data) ∧
        writesOf (push_code w repo (pre ++ f :: post) r).1 =
          pre.map (·.filename) ++ [f.filename] := by
  intro pre
  induction pre with
  | nil =>
    intro f post _ hf
    have hf2 : ¬ (w.putStatus f.filename = 200 ∨ w.putStatus f.filename = 201) :=
      hf
    simp only [List.nil_append, push_code]
    rw [if_neg hf2]
    refine ⟨rfl, ?_⟩
    simp [writesOf, List.filterMap_cons]
  | cons g pre' ih =>
    intro f post hpre hf
    have hg : w.putStatus g.filename = 200 ∨ w.putStatus g.filename = 201 :=
      hpre g (by simp)
    obtain ⟨ih1, ih2⟩ := ih f post (fun q hq => hpre q (by simp [hq])) hf
    simp only [List.cons_append, push_code, List.append_eq]
    rw [if_pos hg]
    refine ⟨ih1, ?_⟩
    simp only [List.cons_append, List.nil_append, List.map_cons]
    rw [writesOf_cons2, ih2]

lemma push_code_probe_write (w : World) (repo : List Char) (r : Nat) :
    ∀ (fs : List GeneratedFile) (i : Nat) (fn : List Char)
      (sf : Option (List Char)),
      ((push_code w repo fs r).1)[i]? =
          some (Event.pushFileWrite repo fn sf) →
      1 ≤ i ∧
        ((push_code w repo fs r).1)[i - 1]? =
          some (Event.pushFileProbe repo fn) ∧
        sf = shaFieldOf w fn := by
  intro fs
  induction fs with
  | nil => intro i fn sf h; simp [push_code] at h
  | cons f rest ih =>
    intro i fn sf h
    simp only [push_code] at h ⊢
    by_cases hc : w.putStatus f.filename = 200 ∨ w.putStatus f.filename = 201
    · rw [if_pos hc] at h ⊢
      simp only [List.cons_append, List.nil_append] at h ⊢
      match i with
      | 0 => simp at h
      | 1 =>
        simp only [List.getElem?_cons_succ, List.getElem?_cons_zero,
          Option.some.injEq, Event.pushFileWrite.injEq] at h
        obtain ⟨-, hfn, hsf⟩ := h
        subst hfn
        exact ⟨le_refl 1, by simp, hsf.symm⟩
      | n + 2 =>
        simp only [List.getElem?_cons_succ] at h
        obtain ⟨h1, h2, h3⟩ := ih n fn sf h
        refine ⟨by omega, ?_, h3⟩
        have hidx : n + 2 - 1 = (n - 1) + 2 := by omega
        rw [hidx]
        simpa using h2
    · rw [if_neg hc] at h ⊢
      match i with
      | 0 => simp at h
      | 1 =>
        simp only [List.getElem?_cons_succ, List.getElem?_cons_zero,
          Option.some.injEq, Event.pushFileWrite.injEq] at h
        obtain ⟨-, hfn, hsf⟩ := h
        subst hfn
        exact ⟨le_refl 1, by simp, hsf.symm⟩
      | n + 2 => simp at h

/-- The files `fetch_repo_files` collects from a listing when no
download raises: eligible entries whose download answered 200. -/
def fetchPure (items : List RepoItem) : List GeneratedFile :=
  items.filterMap fun it =>
    if itemEligible it ∧ it.dlExc = false ∧ it.dlStatus = 200
    then some ⟨it.name, it.dlContent⟩ else none

lemma fetch_loop_no_exc (w : World) (rep : List Char) :
    ∀ (items : List RepoItem) (acc : List GeneratedFile),
      (∀ it ∈ items, itemEligible it → it.dlExc = false) →
      (fetch_loop w rep items acc).2 = acc ++ fetchPure items := by
  intro items
  induction items with
  | nil => intro acc _; simp [fetch_loop, fetchPure]
  | cons it rest ih =>
    intro acc h
    simp only [fetch_loop]
    by_cases he : itemEligible it
    · rw [if_pos he]
      have hexc : it.dlExc = false := h it (by simp) he
      rw [hexc]
      simp only [Bool.false_eq_true, if_false]
      by_cases hs : it.dlStatus = 200
      · rw [if_pos hs]
        have hrec := ih (acc ++ [(⟨it.name, it.dlContent⟩ : GeneratedFile)])
          (fun j hj => h j (by simp [hj]))
        rw [hrec]
        simp [fetchPure, List.filterMap_cons, he, hexc, hs]
      · rw [if_neg hs]
        have hrec := ih acc (fun j hj => h j (by simp [hj]))
        rw [hrec]
        simp [fetchPure, List.filterMap_cons, he, hexc, hs]
    · rw [if_neg he]
      have hrec := ih acc (fun j hj => h j (by simp [hj]))
      rw [hrec]
      simp [fetchPure, List.filterMap_cons, he]

lemma fetch_loop_abort (w : World) (rep : List Char) (it : RepoItem)
    (l₂ : List RepoItem) (he : itemEligible it) (hexc : it.dlExc = true) :
    ∀ (l₁ : List RepoItem) (acc : List GeneratedFile),
      (∀ j ∈ l₁, itemEligible j → j.dlExc = false) →
      (fetch_loop w rep (l₁ ++ it :: l₂) acc).2 = acc ++ fetchPure l₁ := by
  intro l₁
  induction l₁ with
  | nil =>
    intro acc _
    simp only [List.nil_append, fetch_loop]
    rw [if_pos he, if_pos hexc]
    simp [fetchPure]
  | cons j l₁' ih =>
    intro acc h
    simp only [List.cons_append, fetch_loop, List.append_eq]
    by_cases hj : itemEligible j
    · rw [if_pos hj]
      have hjexc : j.dlExc = false := h j (by simp) hj
      rw [hjexc]
      simp only [Bool.false_eq_true, if_false]
      by_cases hs : j.dlStatus = 200
      · rw [if_pos hs]
        have hrec := ih (acc ++ [(⟨j.name, j.dlContent⟩ : GeneratedFile)])
          (fun q hq => h q (by simp [hq]))
        rw [hrec]
        simp [fetchPure, List.filterMap_cons, hj, hjexc, hs]
      · rw [if_neg hs]
        have hrec := ih acc (fun q hq => h q (by simp [hq]))
        rw [hrec]
        simp [fetchPure, List.filterMap_cons, hj, hjexc, hs]
    · rw [if_neg hj]
      have hrec := ih acc (fun q hq => h q (by simp [hq]))
      rw [hrec]
      simp [fetchPure, List.filterMap_cons, hj]

lemma fetch_loop_mem (w : World) (rep : List Char) :
    ∀ (items : List RepoItem) (acc : List GeneratedFile)
      (g : GeneratedFile), g ∈ (fetch_loop w rep items acc).2 →
      g ∈ acc ∨ ∃ it ∈ items, itemEligible it ∧ it.dlExc = false ∧
        it.dlStatus = 200 ∧ g = ⟨it.name, it.dlContent⟩ := by
  intro items
  induction items with
  | nil => intro acc g h; exact Or.inl (by simpa [fetch_loop] using h)
  | cons it rest ih =>
    intro acc g h
    simp only [fetch_loop] at h
    by_cases he : itemEligible it
    · rw [if_pos he] at h
      by_cases hexc : it.dlExc = true
      · rw [if_pos hexc] at h
        exact Or.inl h
      · rw [if_neg hexc] at h
        by_cases hs : it.dlStatus = 200
        · rw [if_pos hs] at h
          rcases ih (acc ++ [⟨it.name, it.dlContent⟩]) g h with hacc | ⟨j, hj, hrest⟩
          · rcases List.mem_append.mp hacc with h1 | h2
            · exact Or.inl h1
            · refine Or.inr ⟨it, by simp, he, by simpa using hexc, hs, ?_⟩
              simpa using h2
          · exact Or.inr ⟨j, by simp [hj], hrest⟩
        · rw [if_neg hs] at h
          rcases ih acc g h with hacc | ⟨j, hj, hrest⟩
          · exact Or.inl hacc
          · exact Or.inr ⟨j, by simp [hj], hrest⟩
    · rw [if_neg he] at h
      rcases ih acc g h with hacc | ⟨j, hj, hrest⟩
      · exact Or.inl hacc
      · exact Or.inr ⟨j, by simp [hj], hrest⟩

lemma fetch_loop_trace_events (w : World) (rep : List Char) :
    ∀ (items : List RepoItem) (acc : List GeneratedFile),
      ∀ e ∈ (fetch_loop w rep items acc).1,
        eventRepo e = some rep ∧ isNotifyEvent e = false ∧
        isWriteEvent e = false := by
  intro items
  induction items with
  | nil => intro acc e h; simp [fetch_loop] at h
  | cons it rest ih =>
    intro acc e h
    simp only [fetch_loop] at h
    by_cases he : itemEligible it
    · rw [if_pos he] at h
      by_cases hexc : it.dlExc = true
      · rw [if_pos hexc] at h
        simp only [List.mem_singleton] at h
        subst h
        exact ⟨rfl, rfl, rfl⟩
      · rw [if_neg hexc] at h
        simp only [List.mem_cons] at h
        rcases h with h | h
        · subst h; exact ⟨rfl, rfl, rfl⟩
        · by_cases hs : it.dlStatus = 200
          · rw [if_pos hs] at h
            exact ih (acc ++ [⟨it.name, it.dlContent⟩]) e h
          · rw [if_neg hs] at h
            exact ih acc e h
    · rw [if_neg he] at h
      exact ih acc e h

lemma push_code_trace_events (w : World) (rep : List Char) ( round : Nat) :
    ∀ fs : List GeneratedFile,
      ∀ e ∈ (push_code w rep fs round ).1,
        eventRepo e = some rep ∧ isNotifyEvent e = false := by
  intro fs
  induction fs with
  | nil => intro e h; simp [push_code] at h
  | cons f rest ih =>
    intro e h
    simp only [push_code] at h
    by_cases hc : w.putStatus f.filename = 200 ∨ w.putStatus f.filename = 201
    · rw [if_pos hc] at h
      simp only [List.cons_append, List.nil_append, List.mem_cons] at h
      rcases h with h | h | h
      · subst h; exact ⟨rfl, rfl⟩
      · subst h; exact ⟨rfl, rfl⟩
      · exact ih e h
    · rw [if_neg hc] at h
      simp only [List.mem_cons, List.mem_singleton] at h
      rcases h with h | h
      · subst h; exact ⟨rfl, rfl⟩
      · rcases h with h | h
        · subst h; exact ⟨rfl, rfl⟩
        · simp at h

lemma pollPages_length_le (w : World) :
    ∀ (n i : Nat), (pollPages w n i).length ≤ n := by
  intro n
  induction n with
  | zero => intro i; simp [pollPages]
  | succ n ih =>
    intro i
    simp only [pollPages]
    by_cases hs : w.pollStatus i = 200
    · rw [if_pos hs]; simp
    · rw [if_neg hs]
      simp only [List.length_cons]
      exact Nat.succ_le_succ (ih (i + 1))

lemma pollPages_length_never (w : World)
    (h : ∀ i, w.pollStatus i ≠ 200) :
    ∀ (n i : Nat), (pollPages w n i).length = n := by
  intro n
  induction n with
  | zero => intro i; simp [pollPages]
  | succ n ih =>
    intro i
    simp only [pollPages]
    rw [if_neg (h i)]
    simp only [List.length_cons]
    rw [ih (i + 1)]

lemma pollBuild_length_le (w : World) (expected : List Char) :
    ∀ (n i : Nat), (pollBuild w expected n i).length ≤ n := by
  intro n
  induction n with
  | zero => intro i; simp [pollBuild]
  | succ n ih =>
    intro i
    simp only [pollBuild]
    by_cases hs : w.buildStatus i = "built".data ∧ w.buildSha i = expected
    · rw [if_pos hs]; simp
    · rw [if_neg hs]
      simp only [List.length_cons]
      exact Nat.succ_le_succ (ih (i + 1))

lemma pollBuild_length_never (w : World) (expected : List Char)
    (h : ∀ i, ¬ (w.buildStatus i = "built".data ∧ w.buildSha i = expected)) :
    ∀ (n i : Nat), (pollBuild w expected n i).length = n := by
  intro n
  induction n with
  | zero => intro i; simp [pollBuild]
  | succ n ih =>
    intro i
    simp only [pollBuild]
    rw [if_neg (h i)]
    simp only [List.length_cons]
    rw [ih (i + 1)]

lemma handle_task_bad_secret (w : World) (d : TaskData)
    (hsec : validate_secret w d.secret = false) :
    handle_task w d = ([], HtResult.errorDict ("Invalid secret".data)) := by
  simp [handle_task, hsec]

lemma handle_task_r1_ok (w : World) (d : TaskData) (p : Payload)
    (hsec : validate_secret w d.secret = true) (hround : d.round = some 1)
    (hr : (round1_handler w d).2 = Except.ok p) :
    handle_task w d =
      ((round1_handler w d).1 ++ pollPages w 24 0 ++ notifyEvents d,
       HtResult.payload p) := by
  simp only [handle_task, hsec, if_true, hround, hr]

lemma handle_task_r1_err (w : World) (d : TaskData) (m : List Char)
    (hsec : validate_secret w d.secret = true) (hround : d.round = some 1)
    (hr : (round1_handler w d).2 = Except.error m) :
    handle_task w d = ((round1_handler w d).1, HtResult.exn m) := by
  simp only [handle_task, hsec, if_true, hround, hr]

lemma handle_task_r2_ok (w : World) (d : TaskData) (p : Payload)
    (hsec : validate_secret w d.secret = true) (hround : d.round = some 2)
    (hr : (round2_handler w d).2 = Except.ok p) :
    handle_task w d =
      ((round2_handler w d).1 ++ pollBuild w p.commit_sha 24 0 ++
        notifyEvents d, HtResult.payload p) := by
  simp only [handle_task, hsec, if_true, hround, hr]

lemma handle_task_r2_err (w : World) (d : TaskData) (m : List Char)
    (hsec : validate_secret w d.secret = true) (hround : d.round = some 2)
    (hr : (round2_handler w d).2 = Except.error m) :
    handle_task w d = ((round2_handler w d).1, HtResult.exn m) := by
  simp only [handle_task, hsec, if_true, hround, hr]

lemma handle_task_bad_round (w : World) (d : TaskData)
    (hsec : validate_secret w d.secret = true)
    (h1 : d.round ≠ some 1) (h2 : d.round ≠ some 2) :
    handle_task w d =
      (notifyEvents d, HtResult.errorDict ("Invalid round".data)) := by
  simp only [handle_task, hsec, if_true]

lemma round1_create_fail (w : World) (d : TaskData)
    (hc : w.createStatus ≠ 201) :
    round1_handler w d =
      ([Event.llmCall, Event.createRepoCall (repoName d.task d.nonce)],
       Except.error ("Failed to create repository".data)) := by
  simp only [round1_handler]
  rw [if_neg hc]

lemma round1_trace_struct (w : World) (d : TaskData) :
    ∃ t, (round1_handler w d).1 =
        Event.llmCall :: Event.createRepoCall (repoName d.task d.nonce) :: t ∧
      ∀ e ∈ t, eventRepo e = some (repoName d.task d.nonce) ∧
        isNotifyEvent e = false := by
  simp only [round1_handler]
  by_cases hc : w.createStatus = 201
  · rw [if_pos hc]
    cases hp : (push_code w (repoName d.task d.nonce) (llm_process w) 1).2 with
    | error m =>
      simp only [hp]
      refine ⟨(push_code w (repoName d.task d.nonce) (llm_process w) 1).1,
        by simp, ?_⟩
      intro e he
      exact push_code_trace_events w (repoName d.task d.nonce) 1
        (llm_process w) e he
    | ok u =>
      simp only [hp]
      by_cases hpg : w.pagesStatus = 201
      · rw [if_pos hpg]
        by_cases hsha : w.latestShaStatus = 200
        · rw [if_pos hsha]
          refine ⟨(push_code w (repoName d.task d.nonce) (llm_process w) 1).1 ++
            [Event.enablePagesCall (repoName d.task d.nonce)] ++
            [Event.getLatestShaCall (repoName d.task d.nonce)], by simp, ?_⟩
          intro e he
          rcases List.mem_append.mp he with he1 | he2
          · rcases List.mem_append.mp he1 with he3 | he4
            · exact push_code_trace_events w (repoName d.task d.nonce) 1
                (llm_process w) e he3
            · simp only [List.mem_singleton] at he4
              subst he4
              exact ⟨rfl, rfl⟩
          · simp only [List.mem_singleton] at he2
            subst he2
            exact ⟨rfl, rfl⟩
        · rw [if_neg hsha]
          refine ⟨(push_code w (repoName d.task d.nonce) (llm_process w) 1).1 ++
            [Event.enablePagesCall (repoName d.task d.nonce)] ++
            [Event.getLatestShaCall (repoName d.task d.nonce)], by simp, ?_⟩
          intro e he
          rcases List.mem_append.mp he with he1 | he2
          · rcases List.mem_append.mp he1 with he3 | he4
            · exact push_code_trace_events w (repoName d.task d.nonce) 1
                (llm_process w) e he3
            · simp only [List.mem_singleton] at he4
              subst he4
              exact ⟨rfl, rfl⟩
          · simp only [List.mem_singleton] at he2
            subst he2
            exact ⟨rfl, rfl⟩
      · rw [if_neg hpg]
        refine ⟨(push_code w (repoName d.task d.nonce) (llm_process w) 1).1 ++
          [Event.enablePagesCall (repoName d.task d.nonce)], by simp, ?_⟩
        intro e he
        rcases List.mem_append.mp he with he1 | he2
        · exact push_code_trace_events w (repoName d.task d.nonce) 1
            (llm_process w) e he1
        · simp only [List.mem_singleton] at he2
          subst he2
          exact ⟨rfl, rfl⟩
  · rw [if_neg hc]
    exact ⟨[], by simp, by simp⟩

lemma fetch_repo_files_trace (w : World) (rep : List Char) :
    ∃ t, (fetch_repo_files w rep).1 = Event.fetchListCall rep :: t ∧
      ∀ e ∈ t, eventRepo e = some rep ∧ isNotifyEvent e = false ∧
        isWriteEvent e = false := by
  simp only [fetch_repo_files]
  by_cases hl : w.listStatus = 200
  · rw [if_pos hl]
    exact ⟨(fetch_loop w rep w.listing []).1, by simp,
      fetch_loop_trace_events w rep w.listing []⟩
  · rw [if_neg hl]
    exact ⟨[], rfl, by simp⟩

lemma round2_empty (w : World) (d : TaskData)
    (hllm : llm_process w = []) :
    (round2_handler w d).2 =
        Except.error ("No files generated by LLM for round 2".data) ∧
      (round2_handler w d).1 =
        (fetch_repo_files w (repoName d.task d.nonce)).1 ++
          [Event.llmCall] := by
  simp only [round2_handler, hllm]
  simp

lemma round2_trace_struct (w : World) (d : TaskData) :
    Event.fetchListCall (repoName d.task d.nonce) ∈ (round2_handler w d).1 ∧
    Event.llmCall ∈ (round2_handler w d).1 ∧
    ∀ e ∈ (round2_handler w d).1,
      (eventRepo e = none ∨ eventRepo e = some (repoName d.task d.nonce)) ∧
      isNotifyEvent e = false := by
  obtain ⟨ft, hft, hfprop⟩ :=
    fetch_repo_files_trace w (repoName d.task d.nonce)
  have hfull : ∀ e ∈ (fetch_repo_files w (repoName d.task d.nonce)).1 ++
      [Event.llmCall],
      (eventRepo e = none ∨ eventRepo e = some (repoName d.task d.nonce)) ∧
      isNotifyEvent e = false := by
    intro e he
    rcases List.mem_append.mp he with he1 | he2
    · rw [hft] at he1
      rcases List.mem_cons.mp he1 with he3 | he4
      · subst he3; exact ⟨Or.inr rfl, rfl⟩
      · exact ⟨Or.inr (hfprop e he4).1, (hfprop e he4).2.1⟩
    · simp only [List.mem_singleton] at he2
      subst he2; exact ⟨Or.inl rfl, rfl⟩
  have hmemf : Event.fetchListCall (repoName d.task d.nonce) ∈
      (fetch_repo_files w (repoName d.task d.nonce)).1 ++ [Event.llmCall] := by
    rw [hft]; simp
  have hmeml : Event.llmCall ∈
      (fetch_repo_files w (repoName d.task d.nonce)).1 ++ [Event.llmCall] := by
    simp
  simp only [round2_handler]
  by_cases hf : llm_process w = []
  · rw [if_pos hf]
    exact ⟨hmemf, hmeml, hfull⟩
  · rw [if_neg hf]
    cases hp : (push_code w (repoName d.task d.nonce) (llm_process w) 2).2 with
    | error m =>
      simp only [hp]
      refine ⟨List.mem_append.mpr (Or.inl hmemf),
        List.mem_append.mpr (Or.inl hmeml), ?_⟩
      intro e he
      rcases List.mem_append.mp he with he1 | he2
      · exact hfull e he1
      · have := push_code_trace_events w (repoName d.task d.nonce) 2
          (llm_process w) e he2
        exact ⟨Or.inr this.1, this.2⟩
    | ok u =>
      simp only [hp]
      have hstep : ∀ e ∈ ((fetch_repo_files w (repoName d.task d.nonce)).1 ++
          [Event.llmCall]) ++
          (push_code w (repoName d.task d.nonce) (llm_process w) 2).1 ++
          [Event.getLatestShaCall (repoName d.task d.nonce)],
          (eventRepo e = none ∨
            eventRepo e = some (repoName d.task d.nonce)) ∧
          isNotifyEvent e = false := by
        intro e he
        rcases List.mem_append.mp he with he1 | he2
        · rcases List.mem_append.mp he1 with he3 | he4
          · exact hfull e he3
          · have := push_code_trace_events w (repoName d.task d.nonce) 2
              (llm_process w) e he4
            exact ⟨Or.inr this.1, this.2⟩
        · simp only [List.mem_singleton] at he2
          subst he2; exact ⟨Or.inr rfl, rfl⟩
      by_cases hsha : w.latestShaStatus = 200
      · rw [if_pos hsha]
        refine ⟨?_, ?_, hstep⟩
        · exact List.mem_append.mpr (Or.inl (List.mem_append.mpr (Or.inl hmemf)))
        · exact List.mem_append.mpr (Or.inl (List.mem_append.mpr (Or.inl hmeml)))
      · rw [if_neg hsha]
        refine ⟨?_, ?_, hstep⟩
        · exact List.mem_append.mpr (Or.inl (List.mem_append.mpr (Or.inl hmemf)))
        · exact List.mem_append.mpr (Or.inl (List.mem_append.mpr (Or.inl hmeml)))

lemma round1_trace_props (w : World) (d : TaskData) :
    Event.llmCall ∈ (round1_handler w d).1 ∧
    Event.createRepoCall (repoName d.task d.nonce) ∈ (round1_handler w d).1 ∧
    ∀ e ∈ (round1_handler w d).1,
      (eventRepo e = none ∨ eventRepo e = some (repoName d.task d.nonce)) ∧
      isNotifyEvent e = false := by
  obtain ⟨t, ht, hprop⟩ := round1_trace_struct w d
  rw [ht]
  refine ⟨by simp, by simp, ?_⟩
  intro e he
  rcases List.mem_cons.mp he with he1 | he2
  · subst he1; exact ⟨Or.inl rfl, rfl⟩
  · rcases List.mem_cons.mp he2 with he3 | he4
    · subst he3; exact ⟨Or.inr rfl, rfl⟩
    · exact ⟨Or.inr (hprop e he4).1, (hprop e he4).2⟩

lemma round1_empty_publish (w : World) (d : TaskData)
    (hllm : llm_process w = []) (hc : w.createStatus = 201) :
    Event.enablePagesCall (repoName d.task d.nonce) ∈ (round1_handler w d).1 ∧
    ∀ e ∈ (round1_handler w d).1, isWriteEvent e = false := by
  simp only [round1_handler, hllm]
  rw [if_pos hc]
  simp only [push_code]
  by_cases hpg : w.pagesStatus = 201
  · rw [if_pos hpg]
    by_cases hsha : w.latestShaStatus = 200
    · rw [if_pos hsha]
      constructor
      · simp
      · intro e he
        simp only [List.cons_append, List.nil_append, List.append_nil,
          List.mem_cons, List.mem_append, List.mem_singleton,
          List.not_mem_nil, or_false] at he
        rcases he with rfl | rfl | rfl | rfl <;> rfl
    · rw [if_neg hsha]
      constructor
      · simp
      · intro e he
        simp only [List.cons_append, List.nil_append, List.append_nil,
          List.mem_cons, List.mem_append, List.mem_singleton,
          List.not_mem_nil, or_false] at he
        rcases he with rfl | rfl | rfl | rfl <;> rfl
  · rw [if_neg hpg]
    constructor
    · simp
    · intro e he
      simp only [List.cons_append, List.nil_append, List.append_nil,
        List.mem_cons, List.mem_append, List.mem_singleton,
        List.not_mem_nil, or_false] at he
      rcases he with rfl | rfl | rfl <;> rfl

lemma shaFieldOf_spec (w : World) (fn : List Char) (s : List Char) :
    shaFieldOf w fn = some s ↔ (get_file_sha w fn = some s ∧ s ≠ []) := by
  unfold shaFieldOf
  cases h : get_file_sha w fn with
  | none => simp
  | some s' =>
    by_cases hs : s' = []
    · subst hs
      simp only [if_pos rfl]
      constructor
      · intro h2; exact absurd h2 (by simp)
      · rintro ⟨h2, h3⟩
        rw [Option.some_inj] at h2
        exact absurd h2.symm h3
    · simp only [if_neg hs]
      constructor
      · intro h2
        rw [Option.some_inj] at h2
        subst h2
        exact ⟨rfl, hs⟩
      · rintro ⟨h2, h3⟩
        rw [Option.some_inj] at h2
        subst h2
        rfl

/-- A concrete round-1 request used by the witnesses. -/
def dEx : TaskData :=
  { email := "e@x".data
    secret := "s".data
    task := "demo".data
    round := some 1
    nonce := "n1".data
    brief := "b".data
    checks := []
    attachments := []
    evaluation_url := some ("http://cb".data) }

/-- The same request for round 2. -/
def dEx2 : TaskData := { dEx with round := some 2 }

/-- The same request with a wrong secret. -/
def dBadSecret : TaskData := { dEx with secret := "wrong".data }

/-- A benign world: every external call succeeds and the generative
service answers with one well-formed block. -/
def wBase : World :=
  { SECRET := "s".data
    llmStatus := 200
    llmContent := "<<README.md>>\nhello\n<<END_FILE>>".data
    createStatus := 201
    pagesStatus := 201
    latestShaStatus := 200
    latestSha := "abc".data
    probeStatus := fun _ => 404
    probeSha := fun _ => []
    putStatus := fun _ => 201
    listStatus := 200
    listing := []
    pollStatus := fun _ => 404
    buildStatus := fun _ => []
    buildSha := fun _ => [] }

/-- A world where repository creation fails. -/
def wCreateFail : World := { wBase with createStatus := 500 }

/-- A world where the generative service fails (so generation is empty). -/
def wLlmFail : World := { wBase with llmStatus := 500 }

/-- C1: in Round 1 the generation call and the repository-creation call
are the first two recorded outbound calls for every world — both are
invoked unconditionally, mirroring the `asyncio.gather` fan-out — and
every publication step (file write, pages enablement) can only appear
after both; when repository creation fails, the handler stops with an
error after exactly those two calls and no publication event occurs. -/
theorem C1_round1_parallel_then_publish (w : World) (d : TaskData) :
    (∃ t, (round1_handler w d).1 =
        Event.llmCall :: Event.createRepoCall (repoName d.task d.nonce) :: t) ∧
    (w.createStatus ≠ 201 →
      round1_handler w d =
        ([Event.llmCall, Event.createRepoCall (repoName d.task d.nonce)],
         Except.error ("Failed to create repository".data)) ∧
      ∀ e ∈ (round1_handler w d).1, isPublishEvent e = false) := by
  constructor
  · obtain ⟨t, ht, -⟩ := round1_trace_struct w d
    exact ⟨t, ht⟩
  · intro hc
    have h := round1_create_fail w d hc
    refine ⟨h, ?_⟩
    rw [h]
    intro e he
    rcases List.mem_cons.mp he with rfl | he2
    · rfl
    · rcases List.mem_cons.mp he2 with rfl | he3
      · rfl
      · simp at he3

/-- Witness for C1 at a concrete world whose repository creation fails:
both calls were made and the handler aborted without publishing. -/
theorem C1_witness :
    round1_handler wCreateFail dEx =
      ([Event.llmCall, Event.createRepoCall (repoName dEx.task dEx.nonce)],
       Except.error ("Failed to create repository".data)) :=
  ((C1_round1_parallel_then_publish wCreateFail dEx).2 (by decide)).1

/-- C2: when generation yields zero files, round 2 aborts with an error
before any file write, while round 1 (repository creation succeeding)
still reaches pages enablement with zero file writes — the empty
publish. -/
theorem C2_empty_generation (w : World) (d : TaskData)
    (hllm : llm_process w = []) :
    ((round2_handler w d).2 =
        Except.error ("No files generated by LLM for round 2".data) ∧
      ∀ e ∈ (round2_handler w d).1, isWriteEvent e = false) ∧
    (w.createStatus = 201 →
      Event.enablePagesCall (repoName d.task d.nonce) ∈
          (round1_handler w d).1 ∧
      ∀ e ∈ (round1_handler w d).1, isWriteEvent e = false) := by
  constructor
  · obtain ⟨herr, htr⟩ := round2_empty w d hllm
    refine ⟨herr, ?_⟩
    rw [htr]
    intro e he
    obtain ⟨ft, hft, hfprop⟩ :=
      fetch_repo_files_trace w (repoName d.task d.nonce)
    rcases List.mem_append.mp he with he1 | he2
    · rw [hft] at he1
      rcases List.mem_cons.mp he1 with rfl | he3
      · rfl
      · exact (hfprop e he3).2.2
    · simp only [List.mem_singleton] at he2
      subst he2
      rfl
  · intro hc
    exact round1_empty_publish w d hllm hc

/-- Witness for C2 at a concrete world whose generative call fails:
round 2 aborts, round 1 still enables hosting. -/
theorem C2_witness :
    (round2_handler wLlmFail dEx2).2 =
        Except.error ("No files generated by LLM for round 2".data) ∧
      Event.enablePagesCall (repoName dEx2.task dEx2.nonce) ∈
        (round1_handler wLlmFail dEx2).1 := by
  have h := C2_empty_generation wLlmFail dEx2 (by decide)
  exact ⟨h.1.1, (h.2 (by decide)).1⟩

/-- C3: the artifact-repository name is the pure function
`task ++ "-" ++ nonce` of the task name and nonce; for one and the same
request both round handlers address exactly this name (round 1 creates
it, round 2 lists it, and every repository-addressing call of either
round carries it), under any pair of worlds. -/
theorem C3_reponame_invariant (d : TaskData) (w w' : World) :
    repoName d.task d.nonce = d.task ++ '-' :: d.nonce ∧
    Event.createRepoCall (repoName d.task d.nonce) ∈ (round1_handler w d).1 ∧
    Event.fetchListCall (repoName d.task d.nonce) ∈ (round2_handler w' d).1 ∧
    (∀ e ∈ (round1_handler w d).1, ∀ rp, eventRepo e = some rp →
      rp = repoName d.task d.nonce) ∧
    (∀ e ∈ (round2_handler w' d).1, ∀ rp, eventRepo e = some rp →
      rp = repoName d.task d.nonce) := by
  refine ⟨rfl, (round1_trace_props w d).2.1, (round2_trace_struct w' d).1,
    ?_, ?_⟩
  · intro e he rp hrp
    rcases ((round1_trace_props w d).2.2 e he).1 with h | h
    · rw [h] at hrp; exact absurd hrp (by simp)
    · rw [h] at hrp
      rw [Option.some_inj] at hrp
      exact hrp.symm
  · intro e he rp hrp
    rcases ((round2_trace_struct w' d).2.2 e he).1 with h | h
    · rw [h] at hrp; exact absurd hrp (by simp)
    · rw [h] at hrp
      rw [Option.some_inj] at hrp
      exact hrp.symm

/-- Witness for C3: for the concrete request, round 1 creates and round 2
lists the same repository `demo-n1`. -/
theorem C3_witness :
    Event.createRepoCall (repoName dEx.task dEx.nonce) ∈
        (round1_handler wBase dEx).1 ∧
      Event.fetchListCall (repoName dEx.task dEx.nonce) ∈
        (round2_handler wBase dEx).1 :=
  ⟨(C3_reponame_invariant dEx wBase wBase).2.1,
   (C3_reponame_invariant dEx wBase wBase).2.2.1⟩

/-- C4: the parser is total and never emits a malformed entry — every
output has a nonempty, strip-stable filename and content; text without
the marker character yields the empty list; and prose before, between
and after well-formed blocks yields exactly those blocks in order. -/
theorem C4_parser_contract :
    (∀ s : List Char, ∀ f ∈ extract_files_from_response s,
        f.filename ≠ [] ∧ f.content ≠ [] ∧
        pyStrip f.filename = f.filename ∧ pyStrip f.content = f.content) ∧
    (∀ s : List Char, '<' ∉ s → extract_files_from_response s = []) ∧
    (∀ (l : List (List Char × GeneratedFile)) (post : List Char),
        (∀ p ∈ l, (∀ c ∈ p.1, ¬ c = '<') ∧ goodFile p.2) →
        (∀ c ∈ post, ¬ c = '<') →
        extract_files_from_response (interleaveJunk l post) = l.map (·.2)) := by
  refine ⟨extract_mem_wellformed, ?_, extract_interleave⟩
  intro s hs
  exact extract_no_lt s fun c hc hceq => hs (hceq ▸ hc)

/-- Witness for C4: markerless text parses to nothing; one block with
prose on both sides parses to exactly that block. -/
theorem C4_witness :
    extract_files_from_response ("hello".data) = [] ∧
    extract_files_from_response
        (interleaveJunk [("intro ".data, ⟨"a".data, "x".data⟩)]
          (" outro".data)) =
      [⟨"a".data, "x".data⟩] := by
  refine ⟨C4_parser_contract.2.1 ("hello".data) (by decide), ?_⟩
  have h := C4_parser_contract.2.2
    [("intro ".data, (⟨"a".data, "x".data⟩ : GeneratedFile))]
    (" outro".data) (by decide) (by decide)
  simpa using h

/-- C5 (amended): serializing a file list with the round-2 context
grammar and re-parsing is the identity for lists of `goodFile`s —
nonempty strip-stable filenames without `>`, nonempty strip-stable
contents free of any case variant of the end marker.  The original
claim, which only excluded the literal substring `<<END_FILE>>`, is
refuted by `C5_counterexample`. -/
theorem C5_roundtrip_amended (fs : List GeneratedFile)
    (h : ∀ f ∈ fs, goodFile f) :
    extract_files_from_response (serializeContext fs) = fs :=
  extract_serializeContext fs h

/-- Witness for C5 on a two-file list whose contents contain angle
brackets. -/
theorem C5_witness :
    extract_files_from_response (serializeContext
        [⟨"a.py".data, "print".data⟩, ⟨"index.html".data, "<html>".data⟩]) =
      [⟨"a.py".data, "print".data⟩, ⟨"index.html".data, "<html>".data⟩] :=
  C5_roundtrip_amended _ (by decide)

/-- Counterexample to C5 as stated: neither `"a"` nor `"x "` contains
the end marker (in any case), yet the round trip is not the identity —
the parser strips the trailing blank of the content. -/
theorem C5_counterexample :
    containsEndCI ("a".data) = false ∧ containsEndCI ("x ".data) = false ∧
    extract_files_from_response (serializeContext [⟨"a".data, "x ".data⟩]) ≠
      [⟨"a".data, "x ".data⟩] := by decide

/-- A world whose probe returns a nonempty revision token. -/
def wProbeSha : World :=
  { wBase with probeStatus := fun _ => 200, probeSha := fun _ => "s1".data }

/-- A world whose probe answers 200 with an empty token string. -/
def wProbeEmpty : World := { wBase with probeStatus := fun _ => 200 }

/-- C6 (amended): every file write of `push_code` is immediately
preceded by the probe for the same file, and the token field of the
write is `shaFieldOf` — the token is included if and only if the probe
returned a NON-empty token (Python truthiness makes an empty token
behave like absence).  The original claim's `if and only if a token is
returned` is refuted by `C6_counterexample`. -/
theorem C6_probe_decides_write (w : World) (repo : List Char) (r : Nat)
    (fs : List GeneratedFile) (i : Nat) (fn : List Char)
    (sf : Option (List Char))
    (h : ((push_code w repo fs r).1)[i]? =
      some (Event.pushFileWrite repo fn sf)) :
    1 ≤ i ∧
    ((push_code w repo fs r).1)[i - 1]? =
      some (Event.pushFileProbe repo fn) ∧
    sf = shaFieldOf w fn ∧
    ∀ s, (shaFieldOf w fn = some s ↔
      get_file_sha w fn = some s ∧ s ≠ []) := by
  obtain ⟨h1, h2, h3⟩ := push_code_probe_write w repo r fs i fn sf h
  exact ⟨h1, h2, h3, fun s => shaFieldOf_spec w fn s⟩

/-- Witness for C6: with a nonempty probed token the write carries it,
right after its probe. -/
theorem C6_witness :
    1 ≤ 1 ∧
    ((push_code wProbeSha ("r".data) [⟨"a".data, "x".data⟩] 1).1)[1 - 1]? =
      some (Event.pushFileProbe ("r".data) ("a".data)) ∧
    some ("s1".data) = shaFieldOf wProbeSha ("a".data) ∧
    (shaFieldOf wProbeSha ("a".data) = some ("s1".data) ↔
      get_file_sha wProbeSha ("a".data) = some ("s1".data) ∧
        "s1".data ≠ []) := by
  have h := C6_probe_decides_write wProbeSha ("r".data) 1
    [⟨"a".data, "x".data⟩] 1 ("a".data) (some ("s1".data)) (by decide)
  exact ⟨h.1, h.2.1, h.2.2.1, h.2.2.2 ("s1".data)⟩

/-- Counterexample to C6 as stated: the probe returns a token (the empty
string, status 200), yet the write is sent without any token — token
presence alone is not the signal, nonemptiness also matters. -/
theorem C6_counterexample :
    get_file_sha wProbeEmpty ("a".data) = some [] ∧
    (push_code wProbeEmpty ("r".data) [⟨"a".data, "x".data⟩] 1).1 =
      [Event.pushFileProbe ("r".data) ("a".data),
       Event.pushFileWrite ("r".data) ("a".data) none] := by decide

/-- C7: both convergence loops evaluate their predicate at most 24
times, exactly 24 times when the predicate never becomes true, and
exhaustion is not fatal — with the round handler succeeding the
endpoint still returns the round's `TaskResult`, whatever the poll
observes. -/
theorem C7_poll_bounded (w : World) (d : TaskData) :
    ((pollPages w 24 0).length ≤ 24 ∧
      ((∀ i, w.pollStatus i ≠ 200) → (pollPages w 24 0).length = 24)) ∧
    (∀ expected : List Char,
      (pollBuild w expected 24 0).length ≤ 24 ∧
      ((∀ i, ¬ (w.buildStatus i = "built".data ∧ w.buildSha i = expected)) →
        (pollBuild w expected 24 0).length = 24)) ∧
    (validate_secret w d.secret = true → d.round = some 1 →
      ∀ p, (round1_handler w d).2 = Except.ok p →
        (handle_task w d).2 = HtResult.payload p) ∧
    (validate_secret w d.secret = true → d.round = some 2 →
      ∀ p, (round2_handler w d).2 = Except.ok p →
        (handle_task w d).2 = HtResult.payload p) := by
  refine ⟨⟨pollPages_length_le w 24 0,
      fun h => pollPages_length_never w h 24 0⟩,
    fun expected => ⟨pollBuild_length_le w expected 24 0,
      fun h => pollBuild_length_never w expected h 24 0⟩, ?_, ?_⟩
  · intro hsec hround p hp
    rw [handle_task_r1_ok w d p hsec hround hp]
  · intro hsec hround p hp
    rw [handle_task_r2_ok w d p hsec hround hp]

/-- The concrete `TaskResult` of the witness run. -/
def pEx : Payload := mkPayload dEx 1 (repoName dEx.task dEx.nonce) ("abc".data)

/-- Witness for C7: a page that never comes up is probed exactly 24
times and the handler still returns the payload. -/
theorem C7_witness :
    (pollPages wBase 24 0).length = 24 ∧
    (handle_task wBase dEx).2 = HtResult.payload pEx := by
  have h := C7_poll_bounded wBase dEx
  exact ⟨h.1.2 (by intro i; exact (by decide : (404 : Nat) ≠ 200)),
    h.2.2.1 (by decide) (by decide) pEx rfl⟩

/-- C8 (amended): an error inside a round's workflow aborts the
remaining states and escapes the endpoint as an unhandled exception —
no `TaskResult` is produced and the notification sink is never called
for that request; the `error`-dict responses exist only for the secret
check and the round check.  The original claim's `the caller or sink
receives an error dict` is refuted by `C8_counterexample`. -/
theorem C8_error_propagation (w : World) (d : TaskData) :
    (validate_secret w d.secret = false →
      handle_task w d = ([], HtResult.errorDict ("Invalid secret".data))) ∧
    (validate_secret w d.secret = true → d.round = some 1 →
      ∀ m, (round1_handler w d).2 = Except.error m →
        handle_task w d = ((round1_handler w d).1, HtResult.exn m) ∧
        ∀ e ∈ (handle_task w d).1, isNotifyEvent e = false) ∧
    (validate_secret w d.secret = true → d.round = some 2 →
      ∀ m, (round2_handler w d).2 = Except.error m →
        handle_task w d = ((round2_handler w d).1, HtResult.exn m) ∧
        ∀ e ∈ (handle_task w d).1, isNotifyEvent e = false) ∧
    (validate_secret w d.secret = true → d.round ≠ some 1 →
      d.round ≠ some 2 →
      handle_task w d =
        (notifyEvents d, HtResult.errorDict ("Invalid round".data))) := by
  refine ⟨handle_task_bad_secret w d, ?_, ?_, handle_task_bad_round w d⟩
  · intro hsec hround m hm
    have h := handle_task_r1_err w d m hsec hround hm
    refine ⟨h, ?_⟩
    rw [h]
    intro e he
    exact ((round1_trace_props w d).2.2 e he).2
  · intro hsec hround m hm
    have h := handle_task_r2_err w d m hsec hround hm
    refine ⟨h, ?_⟩
    rw [h]
    intro e he
    exact ((round2_trace_struct w d).2.2 e he).2

/-- Witness for C8: a wrong secret gets the error dict; a failed
repository creation makes the endpoint raise. -/
theorem C8_witness :
    handle_task wBase dBadSecret =
        ([], HtResult.errorDict ("Invalid secret".data)) ∧
    handle_task wCreateFail dEx =
      ((round1_handler wCreateFail dEx).1,
       HtResult.exn ("Failed to create repository".data)) := by
  refine ⟨(C8_error_propagation wBase dBadSecret).1 (by decide), ?_⟩
  exact ((C8_error_propagation wCreateFail dEx).2.1 (by decide) (by decide)
    ("Failed to create repository".data) rfl).1

/-- Counterexample to C8 as stated: with a valid secret and a failing
repository creation the workflow aborts, but the response is an
unhandled exception — not an `error` dict — and the notification sink
is never called although `evaluation_url` was supplied. -/
theorem C8_counterexample :
    (round1_handler wCreateFail dEx).2 =
        Except.error ("Failed to create repository".data) ∧
    isErrorDict (handle_task wCreateFail dEx).2 = false ∧
    Event.notifyCall ("http://cb".data) ∉ (handle_task wCreateFail dEx).1 :=
  ⟨rfl, by decide, by decide⟩

/-- C9: `push_code` writes strictly in list order; at the first write
answered outside 200/201 it raises at once, having written exactly the
files up to and including the failing one and touching none after it;
a fully successful list is written completely in order (and nothing is
ever rolled back — the trace holds no reverting operation). -/
theorem C9_push_failfast (w : World) (repo : List Char) (r : Nat)
    (pre : List GeneratedFile) (f : GeneratedFile) (post : List GeneratedFile)
    (hpre : ∀ g ∈ pre, putOk w g) (hf : ¬ putOk w f) :
    (push_code w repo (pre ++ f :: post) r).2 =
        Except.error ("Failed to push file".data) ∧
    writesOf (push_code w repo (pre ++ f :: post) r).1 =
      pre.map (·.filename) ++ [f.filename] ∧
    ∀ fs : List GeneratedFile, (∀ g ∈ fs, putOk w g) →
      (push_code w repo fs r).2 = Except.ok () ∧
      writesOf (push_code w repo fs r).1 = fs.map (·.filename) := by
  obtain ⟨h1, h2⟩ := push_code_failfast w repo r pre f post hpre hf
  exact ⟨h1, h2, fun fs hfs => push_code_all_ok w repo r fs hfs⟩

/-- A world rejecting exactly the `PUT` of file `b`. -/
def wPut : World :=
  { wBase with putStatus := fun fn => if fn = "b".data then 500 else 201 }

/-- Witness for C9: of the list `a, b, c` with `b` failing, exactly
`a` then `b` are written, then the push raises. -/
theorem C9_witness :
    (push_code wPut ("r".data)
        [⟨"a".data, "1".data⟩, ⟨"b".data, "2".data⟩, ⟨"c".data, "3".data⟩]
        1).2 =
      Except.error ("Failed to push file".data) ∧
    writesOf (push_code wPut ("r".data)
        [⟨"a".data, "1".data⟩, ⟨"b".data, "2".data⟩, ⟨"c".data, "3".data⟩]
        1).1 =
      ["a".data, "b".data] := by
  have h := C9_push_failfast wPut ("r".data) 1 [⟨"a".data, "1".data⟩]
    ⟨"b".data, "2".data⟩ [⟨"c".data, "3".data⟩] (by decide) (by decide)
  exact ⟨h.1, by simpa using h.2.1⟩

/-- C10: the round-2 context fetcher only ever returns root entries of
type `file`, never `LICENSE` or `.gitignore`, never an entry without a
download URL, and only those whose download answered 200; a failed
listing yields the empty list, a download exception yields exactly the
files collected before it, an exception-free pass yields all eligible
200-downloads; and round 2 always proceeds to the generation call
whatever the fetch outcome. -/
theorem C10_fetch_context (w : World) (reponame : List Char) :
    (∀ g ∈ (fetch_repo_files w reponame).2,
      ∃ it ∈ w.listing, itemEligible it ∧ it.dlExc = false ∧
        it.dlStatus = 200 ∧ g = ⟨it.name, it.dlContent⟩) ∧
    (w.listStatus ≠ 200 → (fetch_repo_files w reponame).2 = []) ∧
    (∀ (l₁ : List RepoItem) (it : RepoItem) (l₂ : List RepoItem),
      w.listing = l₁ ++ it :: l₂ → w.listStatus = 200 →
      (∀ j ∈ l₁, itemEligible j → j.dlExc = false) →
      itemEligible it → it.dlExc = true →
      (fetch_repo_files w reponame).2 = fetchPure l₁) ∧
    (w.listStatus = 200 →
      (∀ j ∈ w.listing, itemEligible j → j.dlExc = false) →
      (fetch_repo_files w reponame).2 = fetchPure w.listing) ∧
    (∀ d : TaskData, Event.llmCall ∈ (round2_handler w d).1) := by
  refine ⟨?_, ?_, ?_, ?_, fun d => (round2_trace_struct w d).2.1⟩
  · intro g hg
    simp only [fetch_repo_files] at hg
    by_cases hl : w.listStatus = 200
    · rw [if_pos hl] at hg
      rcases fetch_loop_mem w reponame w.listing [] g hg with hacc | hex
      · simp at hacc
      · exact hex
    · rw [if_neg hl] at hg
      simp at hg
  · intro hl
    simp only [fetch_repo_files]
    rw [if_neg hl]
  · intro l₁ it l₂ hlist hl hpre he hexc
    simp only [fetch_repo_files]
    rw [if_pos hl, hlist]
    have h := fetch_loop_abort w reponame it l₂ he hexc l₁ [] hpre
    rw [h]
    simp
  · intro hl hno
    simp only [fetch_repo_files]
    rw [if_pos hl]
    have h := fetch_loop_no_exc w reponame w.listing [] hno
    rw [h]
    simp

/-- Listing fixtures for the C10 witness. -/
def itLic : RepoItem :=
  ⟨"LICENSE".data, "file".data, some ("u".data), 200, "L".data, false⟩

/-- An ordinary eligible file in the listing. -/
def itA : RepoItem :=
  ⟨"a.py".data, "file".data, some ("u".data), 200, "A".data, false⟩

/-- A directory entry, skipped by the type filter. -/
def itDir : RepoItem :=
  ⟨"docs".data, "dir".data, none, 200, "D".data, false⟩

/-- An eligible file whose download raises. -/
def itBad : RepoItem :=
  ⟨"b.py".data, "file".data, some ("u".data), 200, "B".data, true⟩

/-- An eligible file after the raising one — never reached. -/
def itC : RepoItem :=
  ⟨"c.py".data, "file".data, some ("u".data), 200, "C".data, false⟩

/-- A world whose listing holds the C10 fixtures. -/
def wFetch : World := { wBase with listing := [itLic, itA, itDir, itBad, itC] }

/-- A world whose listing request fails. -/
def wListFail : World := { wBase with listStatus := 500 }

/-- Witness for C10: a failed listing yields nothing; with the fixture
listing the exception after `a.py` yields exactly `a.py` (the license
and the directory filtered out, `c.py` unreached); round 2 still calls
the generator. -/
theorem C10_witness :
    (fetch_repo_files wListFail ("r".data)).2 = [] ∧
    (fetch_repo_files wFetch ("r".data)).2 =
      [⟨"a.py".data, "A".data⟩] ∧
    Event.llmCall ∈ (round2_handler wFetch dEx2).1 := by
  refine ⟨(C10_fetch_context wListFail ("r".data)).2.1 (by decide), ?_,
    (C10_fetch_context wFetch ("r".data)).2.2.2.2 dEx2⟩
  have h := (C10_fetch_context wFetch ("r".data)).2.2.1
    [itLic, itA, itDir] itBad [itC] (by decide) (by decide)
    (by decide) (by decide) (by decide)
  exact h.trans (by decide)
